import Mathlib

/-!
Verification of the option-registry subsystem (options.c / options.h).

This file gives a shallow embedding of the registry and value-accessor code
and proves or refutes the specification's claims about it.  Definitions are
translated from the first (current) revision of options.c; machine pointers
are modelled as natural-number identifiers, the `store` cells as indices into
an explicit heap (`List Int`), and C strings as `List Char`.
-/

/-! ## Enumerations (options.h) -/

/-- Access contexts, `enum accessor_e` in options.h.  The numeric codes start
at 0x08 = 8 ("offset to avoid overlap with other enums"). -/
inductive accessor_e where
  | any
  | short
  | set_o
  | shopt
  | argv
  | env_shellopts
  | env_bashopts
  | unwind
  | reinit
  | unload
deriving DecidableEq, Repr

/-- Numeric value of an access context (`AccessorC` / `AccessorV`). -/
def AccessorC : accessor_e → Nat
  | .any => 8
  | .short => 9
  | .set_o => 10
  | .shopt => 11
  | .argv => 12
  | .env_shellopts => 13
  | .env_bashopts => 14
  | .unwind => 15
  | .reinit => 16
  | .unload => 17

/-- Macro `AccessorIsStartup(E)  (AccessorC (E) > AccessorV (argv))`.
Note the strict comparison: `argv` itself does not satisfy it. -/
def AccessorIsStartup (e : accessor_e) : Bool :=
  decide (AccessorC .argv < AccessorC e)

/-- Macro `AccessorIsPrivileged(E)  (AccessorC (E) > AccessorV (unwind))`.
Note the strict comparison: `unwind` itself does not satisfy it. -/
def AccessorIsPrivileged (e : accessor_e) : Bool :=
  decide (AccessorC .unwind < AccessorC e)

/-- Mutation results, `enum op_result_e` in options.h.  Codes start at
0x200 = 512. -/
inductive op_result_e where
  | OK
  | Unchanged
  | Ignored
  | NotFound
  | ReadOnly
  | Forbidden
  | BadValue
  | Duplicate
deriving DecidableEq, Repr

/-- Numeric value of a result (`ResultC` / `ResultV`). -/
def ResultC : op_result_e → Nat
  | .OK => 512
  | .Unchanged => 513
  | .Ignored => 514
  | .NotFound => 515
  | .ReadOnly => 516
  | .Forbidden => 517
  | .BadValue => 518
  | .Duplicate => 519

/-! ## Result-to-exit-code mapping (options.c, res_to_ex) -/

/-- Modelled from the spec: `EXECUTION_SUCCESS` is declared in shell.h, which
is not part of this repository; the spec calls it "success".  Bash's value
is 0. -/
def EXECUTION_SUCCESS : Int := 0

/-- Modelled from the spec: `EX_BADUSAGE` is declared in shell.h, which is not
part of this repository; the spec calls it "bad usage".  Bash's value is
258. -/
def EX_BADUSAGE : Int := 258

/-- Modelled from the spec: `EX_BADASSIGN` is declared in shell.h, which is
not part of this repository; the spec calls it "bad assignment".  Bash's
value is 260. -/
def EX_BADASSIGN : Int := 260

/-- Number of entries of the C array `result_to_ex_map`: the highest
designated initializer is `[Result_BadValue]`, so the array has
`Result_BadValue + 1` entries (`Result_Duplicate` is outside it). -/
def result_to_ex_size : Nat := ResultC .BadValue + 1

/-- Entry `r` of the C array `result_to_ex_map`; indices between 0 and 511
are zero-initialized gap entries (unreachable through res_to_ex's range
guard). -/
def result_to_ex_entry (r : Nat) : Int :=
  if r = ResultC .OK then EXECUTION_SUCCESS
  else if r = ResultC .Unchanged then EXECUTION_SUCCESS
  else if r = ResultC .Ignored then EXECUTION_SUCCESS
  else if r = ResultC .NotFound then EX_BADUSAGE
  else if r = ResultC .ReadOnly then EX_BADUSAGE
  else if r = ResultC .Forbidden then EX_BADASSIGN
  else if r = ResultC .BadValue then EX_BADASSIGN
  else 0

/-- Embedding of `res_to_ex` (options.c lines 58-66): the guard rejects
`r < Result_OK` and `r >= sizeof result_to_ex_map / sizeof *result_to_ex_map`
with -1, otherwise indexes the table. -/
def res_to_ex (r : Int) : Int :=
  if r < (ResultC .OK : Int) ∨ (result_to_ex_size : Int) ≤ r then -1
  else result_to_ex_entry r.toNat

/-! ## Option definitions and the value accessor -/

/-- Sentinel `OPTION_INVALID_VALUE` from options.h. -/
def OPTION_INVALID_VALUE : Int := -1

/-- Embedding of `struct opt_def_s` (options.h).  `store` is an index into an
explicit heap (`List Int`); `none` models a NULL pointer.  A custom getter is
modelled by its result as a function of the access context (the definition
argument is already baked in); a custom setter is modelled by the result it
reports -- its side effects belong to code outside this module and are not
exercised by any theorem below (every claim about `set_opt_value` restricts
itself to definitions without a custom setter). -/
structure OptDef where
  name : Option (List Char) := none
  store : Option Nat := none
  get_func : Option (accessor_e → Int) := none
  set_func : Option (accessor_e → Int → op_result_e) := none
  letter : Nat := 0
  hide_set_o : Bool := false
  hide_shopt : Bool := false
  adjust_bashopts : Bool := false
  adjust_shellopts : Bool := false
  readonly : Bool := false
  forbid_change : Bool := false
  ignore_change : Bool := false

/-- Embedding of `get_opt_value` (options.c lines 70-80). -/
def get_opt_value (d : Option OptDef) (heap : List Int) (why : accessor_e) : Int :=
  match d with
  | none => OPTION_INVALID_VALUE
  | some d =>
    match d.get_func with
    | some f => f why
    | none =>
      match d.store with
      | some a => heap.getD a 0
      | none => OPTION_INVALID_VALUE

/-- Outcome of `set_opt_value`.  `done` carries the result, the heap after the
call and whether `set_shellopts` / `set_bashopts` were triggered; `delegated`
records that a custom setter was invoked (its heap effects are external to
this module); `absentStoreRead` marks the undefined behaviour of reading
`d->store[0]` through a NULL `store` pointer. -/
inductive SetOutcome where
  | done (res : op_result_e) (heap : List Int) (syncShell syncBash : Bool)
  | delegated (res : op_result_e) (syncShell syncBash : Bool)
  | absentStoreRead
deriving DecidableEq, Repr

/-- Embedding of `set_opt_value` (options.c lines 82-127).  The computation of
the local flags `adjust_shellopts` / `adjust_bashopts` at lines 120-121 reads
`d->store[0]` guarded only by the short-circuiting adjust bits, not by a
`d->store` NULL check; when either bit is set and `store` is NULL that read is
undefined behaviour, modelled as `absentStoreRead`. -/
def set_opt_value (d : Option OptDef) (heap : List Int) (why : accessor_e)
    (new_value : Int) : SetOutcome :=
  match d with
  | none => .done .NotFound heap false false
  | some d =>
    match d.set_func with
    | some f =>
      let r := f why new_value
      .delegated r (d.adjust_shellopts && decide (r = .OK))
        (d.adjust_bashopts && decide (r = .OK))
    | none =>
      if d.readonly && !AccessorIsPrivileged why then
        .done .ReadOnly heap false false
      else if d.forbid_change && !AccessorIsStartup why then
        let old_value := get_opt_value (some d) heap why
        if new_value = old_value then .done .Unchanged heap false false
        else if d.ignore_change then .done .Ignored heap false false
        else .done .Forbidden heap false false
      else if d.ignore_change then .done .Ignored heap false false
      else if (d.adjust_shellopts || d.adjust_bashopts) && d.store.isNone then
        .absentStoreRead
      else
        let cur := heap.getD (d.store.getD 0) 0
        let aS := d.adjust_shellopts && decide (cur ≠ new_value)
        let aB := d.adjust_bashopts && decide (cur ≠ new_value)
        let heap' := match d.store with
          | some a => heap.set a new_value
          | none => heap
        .done .OK heap' aS aB

/-! ## Concrete definitions used by counterexamples and witnesses -/

/-- A readonly definition with a storage cell and no custom setter. -/
def dReadonlyStore : OptDef := { store := some 0, readonly := true }

/-- A forbid_change definition with a storage cell and no custom setter. -/
def dForbid : OptDef := { store := some 0, forbid_change := true }

/-- A definition with adjust_shellopts set but no storage cell and no custom
setter or getter. -/
def dAdjustNoStore : OptDef := { adjust_shellopts := true }

/-! ## Claim C1 -/

/-- C1 counterexample: the claim says a readonly definition yields `ReadOnly`
for every access context including `reinit` and `unload`; but for the
privileged context `unload` the code bypasses the readonly check, writes the
requested value into the store and returns `OK`. -/
theorem readonly_bypassed_for_unload :
    set_opt_value (some dReadonlyStore) [0] .unload 1 = .done .OK [1] false false ∧
    op_result_e.OK ≠ op_result_e.ReadOnly :=
  ⟨rfl, by decide⟩

/-- C1 (amended): for a readonly definition without a custom setter,
`set_opt_value` returns `ReadOnly` and leaves the storage cell unchanged for
every non-privileged access context (all contexts up to and including
`unwind`).  The privileged contexts `reinit` and `unload` skip this readonly
check (what happens then depends on the definition's remaining bits, as the
later branches of `set_opt_value` decide). -/
theorem set_readonly_rejected (d : OptDef) (heap : List Int) (why : accessor_e)
    (v : Int) (hsf : d.set_func = none) (hro : d.readonly = true)
    (hpriv : AccessorIsPrivileged why = false) :
    set_opt_value (some d) heap why v = .done .ReadOnly heap false false := by
  simp [set_opt_value, hsf, hro, hpriv]

/-- C1 witness: the amended theorem applied to a concrete readonly definition
in the user context `set_o`. -/
theorem set_readonly_rejected_witness :
    set_opt_value (some dReadonlyStore) [0] .set_o 1 =
      .done .ReadOnly [0] false false :=
  set_readonly_rejected dReadonlyStore [0] .set_o 1 rfl rfl (by decide)

/-! ## Claim C2 -/

/-- C2: evaluation of the code at the failing input.  `AccessorIsStartup` is
`AccessorC (E) > AccessorV (argv)`, which excludes `argv` itself, so a
forbid_change definition rejects a change requested while parsing argv with
`Forbidden` (storage unchanged) -- contradicting both the claim and the
code's own comment "not argv or env". -/
theorem forbid_change_blocks_argv :
    AccessorIsStartup .argv = false ∧
    set_opt_value (some dForbid) [0] .argv 1 = .done .Forbidden [0] false false :=
  ⟨rfl, rfl⟩

/-! ## Claim C8 -/

/-- C8: `res_to_ex` is total: the three success results map to
`EXECUTION_SUCCESS`, `NotFound`/`ReadOnly` to `EX_BADUSAGE`,
`Forbidden`/`BadValue` to `EX_BADASSIGN`, and every value outside the known
range of the table (below `Result_OK` or at/after the table's size, which
includes `Result_Duplicate` = 519) maps to the sentinel -1, never to the
success code. -/
theorem res_to_ex_total :
    (res_to_ex (ResultC .OK) = EXECUTION_SUCCESS ∧
     res_to_ex (ResultC .Unchanged) = EXECUTION_SUCCESS ∧
     res_to_ex (ResultC .Ignored) = EXECUTION_SUCCESS ∧
     res_to_ex (ResultC .NotFound) = EX_BADUSAGE ∧
     res_to_ex (ResultC .ReadOnly) = EX_BADUSAGE ∧
     res_to_ex (ResultC .Forbidden) = EX_BADASSIGN ∧
     res_to_ex (ResultC .BadValue) = EX_BADASSIGN) ∧
    ∀ r : Int, (r < (ResultC .OK : Int) ∨ (result_to_ex_size : Int) ≤ r) →
      res_to_ex r = -1 ∧ res_to_ex r ≠ EXECUTION_SUCCESS := by
  refine ⟨by decide, fun r hr => ?_⟩
  unfold res_to_ex
  rw [if_pos hr]
  exact ⟨rfl, by decide⟩

/-- C8 witness: the out-of-range branch of the theorem applied at the
concrete value 519 (`Result_Duplicate`, one past the table). -/
theorem res_to_ex_total_witness :
    res_to_ex 519 = -1 ∧ res_to_ex 519 ≠ EXECUTION_SUCCESS :=
  res_to_ex_total.2 519 (Or.inr (by decide))

/-! ## Claim C9 -/

/-- C9: for a NULL definition pointer and every access context,
`get_opt_value` returns the `OPTION_INVALID_VALUE` sentinel and
`set_opt_value` returns `NotFound` with the heap unchanged and no
synchronization triggered (neither function takes or touches any registry
state). -/
theorem null_definition_safe :
    ∀ (heap : List Int) (why : accessor_e) (v : Int),
      get_opt_value none heap why = OPTION_INVALID_VALUE ∧
      set_opt_value none heap why v = .done .NotFound heap false false :=
  fun _ _ _ => ⟨rfl, rfl⟩

/-! ## Claim C10 -/

/-- C10: evaluation of the code at the failing input.  For a definition with
no custom setter, no storage cell, readonly/forbid_change/ignore_change all
clear but `adjust_shellopts` set, the default write path computes
`d->adjust_shellopts && d->store[0] != new_value` (options.c line 120), which
reads `d->store[0]` without any NULL guard -- the claim that every `store[0]`
read on this path is guarded is violated. -/
theorem set_unguarded_store_read :
    set_opt_value (some dAdjustNoStore) [] .set_o 1 = .absentStoreRead :=
  rfl

/-! ## The registry (options.c): ordered name table and letter table -/

/-- Comparison of C strings, as by `strcmp`: only the sign of the result is
ever used by the callers in options.c. -/
def strcmp : List Char → List Char → Int
  | [], [] => 0
  | [], _ :: _ => -1
  | _ :: _, [] => 1
  | a :: as, b :: bs =>
    if a < b then -1
    else if b < a then 1
    else strcmp as bs

/-- Embedding of `struct search_result_s`. -/
structure search_result_t where
  index : Nat
  matched : Bool
deriving DecidableEq, Repr

/-- Loop of `search_options` (options.c lines 175-192): binary search over
the name-sorted window `[left, right)` of the list of names `ns`. -/
def searchLoop (key : List Char) (ns : List (List Char)) (left right : Nat) :
    search_result_t :=
  if h : left < right then
    if strcmp key (ns.getD ((left + right) / 2) []) < 0 then
      searchLoop key ns left ((left + right) / 2)
    else if 0 < strcmp key (ns.getD ((left + right) / 2) []) then
      searchLoop key ns ((left + right) / 2 + 1) right
    else ⟨(left + right) / 2, true⟩
  else ⟨left, false⟩
termination_by right - left
decreasing_by
  · omega
  · omega

/-- MAX_SHORT_NAMES = 1 + CHAR_MAX. -/
def MAX_SHORT_NAMES : Nat := 128

/-- Observable state of the registry: `ordered` is `OrderedOpts.defs[0..len)`
(definition pointers modelled as identifiers), `shortMap` is
`ShortOpts.map`, `shortCount` is `ShortOpts.count` and `enumeration` the
cached letter string (`none` when invalidated).  Capacity management
(`resize_vector`) only affects memory allocation and is not observable. -/
structure RegState where
  ordered : List Nat
  shortMap : List (Option Nat)
  shortCount : Int
  enumeration : Option (List Nat)
deriving DecidableEq, Repr

/-- The name of the definition a pointer designates (registered named
definitions always have one; `[]` stands for the unreachable NULL case). -/
def nameOf (D : Nat → OptDef) (p : Nat) : List Char := ((D p).name).getD []

/-- Embedding of `search_options`: binary search over the whole table. -/
def search_options (D : Nat → OptDef) (s : RegState) (name : List Char) :
    search_result_t :=
  searchLoop name (s.ordered.map (nameOf D)) 0 s.ordered.length

/-- Embedding of `find_option` (options.c lines 194-201). -/
def find_option (D : Nat → OptDef) (s : RegState) (name : List Char) :
    Option Nat :=
  let S := search_options D s name
  if S.matched then some (s.ordered.getD S.index 0) else none

/-- Embedding of `find_short_option` (options.c lines 222-226): direct table
lookup. -/
def find_short_option (s : RegState) (letter : Nat) : Option Nat :=
  s.shortMap.getD letter none

/-- Embedding of `register_option` (options.c lines 263-353); `register_option`
is a reserved Lean command name, hence the camel-case spelling. -/
def registerOption (D : Nat → OptDef) (s : RegState) (p : Nat) :
    op_result_e × RegState :=
  let d := D p
  let S : search_result_t :=
    match d.name with
    | some n => search_options D s n
    | none => ⟨0, false⟩
  if d.name.isSome ∧ S.matched = true ∧ s.ordered.getD S.index 0 ≠ p then
    (.Duplicate, s)
  else
    let letterOld : Option Nat :=
      if d.letter ≠ 0 then s.shortMap.getD d.letter none else none
    if letterOld.isSome ∧ letterOld ≠ some p then (.Duplicate, s)
    else
      let reloading_name := d.name.isSome ∧ S.matched = true
      let reloading_letter := letterOld = some p
      let c := if reloading_letter then 0 else d.letter
      if reloading_name ∧ reloading_letter then (.Unchanged, s)
      else
        let s1 :=
          if d.name.isSome ∧ S.matched = false then
            { s with ordered := s.ordered.insertIdx S.index p }
          else s
        if c ≠ 0 then
          (.OK, { s1 with shortMap := s1.shortMap.set c (some p),
                          shortCount := s1.shortCount + 1,
                          enumeration := none })
        else (.OK, s1)

/-- Embedding of `deregister_letter` (options.c lines 355-388, the compiled
non-QUICK_DEREGISTER branch).  The loop body executes `*dd == NULL;` -- a
comparison, not an assignment -- so the letter-table entry is never cleared,
while `ShortOpts.count` is still decremented; the cached enumeration is not
invalidated either. -/
def deregister_letter (s : RegState) (p : Nat) : op_result_e × RegState :=
  let nMatches := (s.shortMap.filter (fun o => decide (o = some p))).length
  ((if nMatches = 1 then .OK else .BadValue),
   { s with shortCount := s.shortCount - nMatches })

/-- Embedding of `deregister_name` (options.c lines 390-421, the compiled
non-QUICK_DEREGISTER branch): the memmove loop erases every occurrence of the
pointer from the ordered table, preserving the order of the rest. -/
def deregister_name (s : RegState) (p : Nat) : op_result_e × RegState :=
  let nMatches := (s.ordered.filter (fun q => decide (q = p))).length
  ((if 0 < nMatches then .OK else .BadValue),
   { s with ordered := s.ordered.filter (fun q => decide (q ≠ p)) })

/-- Embedding of `deregister_option` (options.c lines 425-442).  The final
SHELLOPTS/BASHOPTS regeneration only rewrites the derived shell variables and
does not touch the registry, so it is not modelled here. -/
def deregister_option (s : RegState) (p : Nat) : op_result_e × RegState :=
  let s1 := (deregister_letter s p).2
  let s2 := (deregister_name s1 p).2
  (.OK, s2)

/-- Embedding of `get_short_opt_names` (options.c lines 228-254): return the
cached enumeration if present; otherwise scan `ShortOpts.min` from 1 for a
first registered letter, returning "" (without caching) if there is none, and
otherwise collect all registered letters in ascending index order, cache and
return them. -/
def get_short_opt_names (s : RegState) : List Nat × RegState :=
  match s.enumeration with
  | some e => (e, s)
  | none =>
    if (List.range MAX_SHORT_NAMES).all
         (fun c => decide (c = 0 ∨ s.shortMap.getD c none = none)) then
      ([], s)
    else
      let e := (List.range MAX_SHORT_NAMES).filter
                 (fun c => (s.shortMap.getD c none).isSome)
      (e, { s with enumeration := some e, shortCount := (e.length : Int) })

/-- Embedding of `count_options` (options.c lines 713-717). -/
def count_options (s : RegState) : Nat := s.ordered.length

/-- The letter table of an empty registry. -/
def emptyShortMap : List (Option Nat) := List.replicate MAX_SHORT_NAMES none

/-- The initial, empty registry state. -/
def initState : RegState :=
  { ordered := [], shortMap := emptyShortMap, shortCount := 0,
    enumeration := none }

/-! ## Order lemmas for strcmp -/

theorem strcmp_eq_zero_iff : ∀ a b : List Char, strcmp a b = 0 ↔ a = b
  | [], [] => by simp [strcmp]
  | [], _ :: _ => by simp [strcmp]
  | _ :: _, [] => by simp [strcmp]
  | a :: as, b :: bs => by
    by_cases h1 : a < b
    · simp [strcmp, h1, ne_of_lt h1]
    · by_cases h2 : b < a
      · simp [strcmp, h1, h2, (ne_of_lt h2).symm]
      · have hab : a = b := le_antisymm (not_lt.mp h2) (not_lt.mp h1)
        simp [strcmp, h1, h2, hab, strcmp_eq_zero_iff as bs]

theorem strcmp_swap : ∀ a b : List Char, strcmp b a = -strcmp a b
  | [], [] => by simp [strcmp]
  | [], _ :: _ => by simp [strcmp]
  | _ :: _, [] => by simp [strcmp]
  | a :: as, b :: bs => by
    rcases lt_trichotomy a b with h | h | h
    · simp [strcmp, h, not_lt.mpr h.le]
    · subst h
      simp [strcmp, lt_irrefl, strcmp_swap as bs]
    · simp [strcmp, h, not_lt.mpr h.le]

theorem strcmp_lt_trans : ∀ a b c : List Char,
    strcmp a b < 0 → strcmp b c < 0 → strcmp a c < 0
  | [], [], _, h1, _ => by simp [strcmp] at h1
  | [], _ :: _, [], _, h2 => by simp [strcmp] at h2
  | [], _ :: _, _ :: _, _, _ => by simp [strcmp]
  | _ :: _, [], _, h1, _ => by simp [strcmp] at h1
  | _ :: _, _ :: _, [], _, h2 => by simp [strcmp] at h2
  | a :: as, b :: bs, c :: cs, h1, h2 => by
    by_cases hba : b < a
    · simp [strcmp, hba, not_lt.mpr hba.le] at h1
    · by_cases hcb : c < b
      · simp [strcmp, hcb, not_lt.mpr hcb.le] at h2
      · by_cases hab : a < b
        · by_cases hbc : b < c
          · simp [strcmp, lt_trans hab hbc]
          · have hbc' : b = c := le_antisymm (not_lt.mp hcb) (not_lt.mp hbc)
            subst hbc'
            simp [strcmp, hab]
        · have hab' : a = b := le_antisymm (not_lt.mp hba) (not_lt.mp hab)
          subst hab'
          by_cases hbc : a < c
          · simp [strcmp, hbc]
          · have hbc' : a = c := le_antisymm (not_lt.mp hcb) (not_lt.mp hbc)
            subst hbc'
            simp [strcmp, lt_irrefl] at h1 h2 ⊢
            exact strcmp_lt_trans as bs cs h1 h2

/-! ## Generic list helpers -/

theorem getD_eq_getElem {α : Type} (l : List α) (d : α) {i : Nat}
    (h : i < l.length) : l.getD i d = l[i] := by
  simp [List.getD_eq_getElem?_getD, List.getElem?_eq_getElem h]

theorem pairwise_getD {α : Type} {R : α → α → Prop} {ns : List α} (d : α)
    (hs : ns.Pairwise R) {i j : Nat} (hi : i < ns.length) (hj : j < ns.length)
    (hij : i < j) : R (ns.getD i d) (ns.getD j d) := by
  rw [getD_eq_getElem ns d hi, getD_eq_getElem ns d hj]
  exact List.pairwise_iff_getElem.mp hs i j hi hj hij

/-! ## Correctness of the binary search -/

theorem searchLoop_sound (key : List Char) (ns : List (List Char))
    (left right i : Nat) (h : searchLoop key ns left right = ⟨i, true⟩) :
    left ≤ i ∧ i < right ∧ strcmp key (ns.getD i []) = 0 := by
  rw [searchLoop] at h
  by_cases hlr : left < right
  · rw [dif_pos hlr] at h
    by_cases h1 : strcmp key (ns.getD ((left + right) / 2) []) < 0
    · rw [if_pos h1] at h
      have ih := searchLoop_sound key ns left ((left + right) / 2) i h
      exact ⟨ih.1, by omega, ih.2.2⟩
    · rw [if_neg h1] at h
      by_cases h2 : 0 < strcmp key (ns.getD ((left + right) / 2) [])
      · rw [if_pos h2] at h
        have ih := searchLoop_sound key ns ((left + right) / 2 + 1) right i h
        exact ⟨by omega, ih.2.1, ih.2.2⟩
      · rw [if_neg h2] at h
        injection h with hidx _
        subst hidx
        exact ⟨by omega, by omega, by omega⟩
  · rw [dif_neg hlr] at h
    simp at h
termination_by right - left
decreasing_by
  · omega
  · omega

theorem searchLoop_complete (key : List Char) (ns : List (List Char))
    (hs : ns.Pairwise (fun x y => strcmp x y < 0))
    (left right j : Nat) (hj : j < ns.length) (hkey : ns.getD j [] = key)
    (hl : left ≤ j) (hr : j < right) (hrn : right ≤ ns.length) :
    searchLoop key ns left right = ⟨j, true⟩ := by
  have hlr : left < right := lt_of_le_of_lt hl hr
  have hmidr : (left + right) / 2 < right := by omega
  have hmidl : left ≤ (left + right) / 2 := by omega
  have hmidn : (left + right) / 2 < ns.length := lt_of_lt_of_le hmidr hrn
  rw [searchLoop, dif_pos hlr]
  rcases lt_trichotomy j ((left + right) / 2) with hjm | hjm | hjm
  · have hlt : strcmp (ns.getD j []) (ns.getD ((left + right) / 2) []) < 0 :=
      pairwise_getD [] hs hj hmidn hjm
    rw [hkey] at hlt
    rw [if_pos hlt]
    exact searchLoop_complete key ns hs left ((left + right) / 2) j hj hkey hl
      hjm (le_of_lt hmidn)
  · have h0 : strcmp key (ns.getD ((left + right) / 2) []) = 0 := by
      rw [← hjm, hkey]
      exact (strcmp_eq_zero_iff key key).mpr rfl
    rw [if_neg (by omega), if_neg (by omega)]
    rw [← hjm]
  · have hlt : strcmp (ns.getD ((left + right) / 2) []) (ns.getD j []) < 0 :=
      pairwise_getD [] hs hmidn hj hjm
    rw [hkey] at hlt
    have hswap := strcmp_swap (ns.getD ((left + right) / 2) []) key
    have hgt : 0 < strcmp key (ns.getD ((left + right) / 2) []) := by omega
    rw [if_neg (by omega), if_pos hgt]
    exact searchLoop_complete key ns hs ((left + right) / 2 + 1) right j hj hkey
      (by omega) hr hrn
termination_by right - left
decreasing_by
  · omega
  · omega

/-! ## Registry well-formedness -/

/-- Well-formedness of a registry state: every registered definition in the
ordered table is named, and the table is strictly sorted by name.  This is
the invariant `register_option` establishes by inserting at the binary-search
insertion point (the disabled debug block at options.c lines 316-340 asserts
exactly this). -/
def WF (D : Nat → OptDef) (s : RegState) : Prop :=
  (∀ p ∈ s.ordered, (D p).name.isSome) ∧
  s.ordered.Pairwise (fun a b => strcmp (nameOf D a) (nameOf D b) < 0)

instance (D : Nat → OptDef) (s : RegState) : Decidable (WF D s) := by
  unfold WF
  infer_instance

/-- In a sorted registry two registered definitions with the same name are the
same definition. -/
theorem sorted_name_unique (D : Nat → OptDef) (s : RegState) (hWF : WF D s)
    {p q : Nat} (hp : p ∈ s.ordered) (hq : q ∈ s.ordered)
    (heq : nameOf D p = nameOf D q) : p = q := by
  obtain ⟨i, hi, hip⟩ := List.getElem_of_mem hp
  obtain ⟨j, hj, hjq⟩ := List.getElem_of_mem hq
  rcases lt_trichotomy i j with hij | hij | hij
  · have := List.pairwise_iff_getElem.mp hWF.2 i j hi hj hij
    rw [hip, hjq, heq] at this
    rw [(strcmp_eq_zero_iff _ _).mpr rfl] at this
    omega
  · subst hij
    rw [← hip, ← hjq]
  · have := List.pairwise_iff_getElem.mp hWF.2 j i hj hi hij
    rw [hip, hjq, heq] at this
    rw [(strcmp_eq_zero_iff _ _).mpr rfl] at this
    omega

/-- Auxiliary description of `search_options` on a registered name: it finds
the exact index of the definition carrying that name. -/
theorem search_options_mem (D : Nat → OptDef) (s : RegState) (p j : Nat)
    (hWF : WF D s) (hj : j < s.ordered.length)
    (hjp : s.ordered[j] = p) :
    search_options D s (nameOf D p) = ⟨j, true⟩ := by
  unfold search_options
  have hlen : (s.ordered.map (nameOf D)).length = s.ordered.length :=
    List.length_map _ _
  apply searchLoop_complete
  · exact List.pairwise_map.mpr hWF.2
  · omega
  · rw [getD_eq_getElem _ _ (by omega)]
    rw [List.getElem_map]
    rw [hjp]
  · omega
  · exact hj
  · omega

/-- `find_option` returns exactly a registered definition when given its
name. -/
theorem find_option_mem (D : Nat → OptDef) (s : RegState) {p : Nat}
    (hWF : WF D s) (hp : p ∈ s.ordered) :
    find_option D s (nameOf D p) = some p := by
  obtain ⟨j, hj, hjp⟩ := List.getElem_of_mem hp
  unfold find_option
  rw [search_options_mem D s p j hWF hj hjp]
  simp only [if_pos]
  rw [getD_eq_getElem _ _ hj, hjp]

/-- `find_option` returns nothing when no registered definition has the
requested name. -/
theorem find_option_of_no_name (D : Nat → OptDef) (s : RegState)
    (name : List Char) (hWF : WF D s)
    (hnone : ∀ q ∈ s.ordered, nameOf D q ≠ name) :
    find_option D s name = none := by
  unfold find_option
  by_cases hm : (search_options D s name).matched = true
  · exfalso
    have hS : search_options D s name = ⟨(search_options D s name).index, true⟩ := by
      cases hE : search_options D s name
      rw [hE] at hm
      simp only at hm
      rw [hm]
    have hsound := searchLoop_sound name (s.ordered.map (nameOf D)) 0
      s.ordered.length (search_options D s name).index hS
    have hilen : (search_options D s name).index < s.ordered.length := hsound.2.1
    have hzero := hsound.2.2
    rw [getD_eq_getElem _ _ (by simpa using hilen)] at hzero
    rw [List.getElem_map] at hzero
    have hname : nameOf D (s.ordered[(search_options D s name).index]) = name := by
      have hswap := strcmp_swap name
        (nameOf D (s.ordered[(search_options D s name).index]))
      have h0 : strcmp (nameOf D (s.ordered[(search_options D s name).index])) name = 0 := by
        omega
      exact (strcmp_eq_zero_iff _ _).mp h0
    exact hnone _ (List.getElem_mem _) hname
  · rw [if_neg hm]

/-! ## Claim C6 -/

/-- C6: for a registered named definition, `find_option` on its name returns
exactly that definition (binary search over the name-sorted table), and after
`deregister_option` the same lookup returns nothing. -/
theorem find_registered_then_deregistered (D : Nat → OptDef) (s : RegState)
    (p : Nat) (n : List Char) (hWF : WF D s) (hp : p ∈ s.ordered)
    (hn : (D p).name = some n) :
    find_option D s n = some p ∧
    find_option D (deregister_option s p).2 n = none := by
  have hnm : nameOf D p = n := by simp [nameOf, hn]
  constructor
  · rw [← hnm]
    exact find_option_mem D s hWF hp
  · have hord : (deregister_option s p).2.ordered
        = s.ordered.filter (fun q => decide (q ≠ p)) := rfl
    apply find_option_of_no_name
    · constructor
      · intro q hq
        rw [hord] at hq
        exact hWF.1 q (List.mem_of_mem_filter hq)
      · rw [hord]
        exact List.Pairwise.sublist (List.filter_sublist _) hWF.2
    · intro q hq hqn
      rw [hord] at hq
      have hmem := List.mem_filter.mp hq
      have hqp : q ≠ p := by simpa using hmem.2
      exact hqp (sorted_name_unique D s hWF hmem.1 hp (by rw [hqn, hnm]))

/-- Two concrete named definitions used by several witnesses. -/
def defA : OptDef := { name := some ['a'], store := some 0 }

/-- Second concrete named definition, name after defA's. -/
def defB : OptDef := { name := some ['b'], store := some 1 }

/-- A concrete two-definition table. -/
def Dab : Nat → OptDef := fun p => if p = 0 then defA else defB

/-- A registry state with defA and defB registered in name order. -/
def sAB : RegState :=
  { ordered := [0, 1], shortMap := emptyShortMap, shortCount := 0,
    enumeration := none }

/-- C6 witness: the theorem applied to the concrete registry holding defA and
defB. -/
theorem find_registered_then_deregistered_witness :
    find_option Dab sAB ['a'] = some 0 ∧
    find_option Dab (deregister_option sAB 0).2 ['a'] = none :=
  find_registered_then_deregistered Dab sAB 0 ['a'] (by decide) (by decide)
    (by decide)

/-! ## Claim C3 -/

/-- C3: registering a different definition whose name or letter collides with
a registered definition returns `Duplicate` and leaves the registry entirely
unchanged, so the original definition is still found by `find_option` on its
name and by `find_short_option` on the colliding letter; under `WF`, the
strictly-sorted name table and the functional letter table already force at
most one registered definition per name and per letter. -/
theorem register_collision_duplicate (D : Nat → OptDef) (s : RegState)
    (d e : Nat) (hWF : WF D s) (hne : e ≠ d)
    (hcol : ((D e).name.isSome ∧ (D e).name = (D d).name ∧ d ∈ s.ordered)
          ∨ ((D e).letter ≠ 0 ∧ s.shortMap.getD (D e).letter none = some d)) :
    registerOption D s e = (.Duplicate, s)
    ∧ (d ∈ s.ordered → find_option D s (nameOf D d) = some d)
    ∧ (s.shortMap.getD (D e).letter none = some d →
        find_short_option s (D e).letter = some d) := by
  refine ⟨?_, fun hd => find_option_mem D s hWF hd, fun h => h⟩
  rcases hcol with ⟨hnameSome, hnameEq, hdmem⟩ | ⟨hl, hmap⟩
  · obtain ⟨n, hn⟩ := Option.isSome_iff_exists.mp hnameSome
    have hdn : (D d).name = some n := by rw [← hnameEq, hn]
    have hnm : nameOf D d = n := by simp [nameOf, hdn]
    obtain ⟨j, hj, hjd⟩ := List.getElem_of_mem hdmem
    have hS : search_options D s n = ⟨j, true⟩ := by
      rw [← hnm]
      exact search_options_mem D s d j hWF hj hjd
    have hgd : s.ordered.getD j 0 ≠ e := by
      rw [getD_eq_getElem _ _ hj, hjd]
      exact fun hc => hne hc.symm
    simp only [registerOption, hn, hS, Option.isSome_some]
    rw [if_pos ⟨trivial, trivial, hgd⟩]
  · have hold : (if (D e).letter ≠ 0 then s.shortMap.getD (D e).letter none
        else none) = some d := by
      rw [if_pos hl, hmap]
    have hnotp : (some d : Option Nat) ≠ some e := by
      simp [hne]
      exact fun hc => hne hc.symm
    cases hEn : (D e).name with
    | none =>
      simp only [registerOption, hEn, Option.isSome_none]
      rw [if_neg (by simp), hold, if_pos ⟨rfl, hnotp⟩]
    | some n =>
      by_cases hnd : (search_options D s n).matched = true ∧
          s.ordered.getD (search_options D s n).index 0 ≠ e
      · simp only [registerOption, hEn, Option.isSome_some]
        rw [if_pos ⟨trivial, hnd.1, hnd.2⟩]
      · simp only [registerOption, hEn, Option.isSome_some]
        rw [if_neg (by simpa using fun h1 h2 => hnd ⟨h1, h2⟩), hold,
          if_pos ⟨rfl, hnotp⟩]

/-- A third definition colliding with defA by name (a different pointer). -/
def defA2 : OptDef := { name := some ['a'], store := some 7 }

/-- Definition table where pointer 2 is a name-collider with defA. -/
def Dab2 : Nat → OptDef := fun p =>
  if p = 0 then defA else if p = 1 then defB else defA2

/-- C3 witness: registering the name-colliding pointer 2 into the concrete
registry returns Duplicate, the registry is unchanged and defA is still
found. -/
theorem register_collision_duplicate_witness :
    registerOption Dab2 sAB 2 = (.Duplicate, sAB)
    ∧ (0 ∈ sAB.ordered → find_option Dab2 sAB (nameOf Dab2 0) = some 0)
    ∧ (sAB.shortMap.getD (Dab2 2).letter none = some 0 →
        find_short_option sAB (Dab2 2).letter = some 0) :=
  register_collision_duplicate Dab2 sAB 0 2 (by decide) (by decide)
    (Or.inl (by decide))

/-! ## Claim C4 -/

/-- A definition with a name but no letter, used to refute C4 as stated. -/
def defNameOnly : OptDef := { name := some ['a'], store := some 0 }

/-- A registry state in which defNameOnly (pointer 0) is registered. -/
def sNameOnly : RegState :=
  { ordered := [0], shortMap := emptyShortMap, shortCount := 0,
    enumeration := none }

/-- C4 counterexample: re-registering the identical pointer of an
already-registered definition that has only a name (no letter) returns `OK`,
not `Unchanged` -- the `Unchanged` early return requires both
`reloading_name` and `reloading_letter`. -/
theorem reregister_name_only_returns_ok :
    (registerOption (fun _ => defNameOnly) sNameOnly 0).1 = .OK ∧
    op_result_e.OK ≠ op_result_e.Unchanged := by
  have hS : search_options (fun _ => defNameOnly) sNameOnly ['a'] = ⟨0, true⟩ :=
    search_options_mem (fun _ => defNameOnly) sNameOnly 0 0 (by decide)
      (by decide) (by decide)
  constructor
  · simp only [defNameOnly, sNameOnly] at hS
    simp only [registerOption, defNameOnly, sNameOnly, hS]
    decide
  · decide

/-- C4 (amended): calling the registration function a second time with the
identical definition pointer leaves the registry state -- in particular
`count_options` -- unchanged, and returns `Unchanged` exactly when the
definition is registered under both a name and a letter; with only a name or
only a letter it returns `OK` instead. -/
theorem register_same_pointer (D : Nat → OptDef) (s : RegState) (p : Nat)
    (hWF : WF D s)
    (hnm : (D p).name.isSome → p ∈ s.ordered)
    (hlt : (D p).letter ≠ 0 → s.shortMap.getD (D p).letter none = some p)
    (hreg : (D p).name.isSome ∨ (D p).letter ≠ 0) :
    (registerOption D s p).2 = s ∧
    count_options (registerOption D s p).2 = count_options s ∧
    ((registerOption D s p).1 = .Unchanged ↔
      ((D p).name.isSome ∧ (D p).letter ≠ 0)) := by
  suffices h : registerOption D s p =
      ((if (D p).name.isSome ∧ (D p).letter ≠ 0 then .Unchanged else .OK), s) by
    rw [h]
    refine ⟨rfl, rfl, ?_⟩
    by_cases hc : (D p).name.isSome ∧ (D p).letter ≠ 0
    · simp [hc]
    · simp [hc]
  cases hEn : (D p).name with
  | some n =>
    have hpmem : p ∈ s.ordered := hnm (by rw [hEn]; rfl)
    obtain ⟨j, hj, hjp⟩ := List.getElem_of_mem hpmem
    have hS : search_options D s n = ⟨j, true⟩ := by
      have hnmof : nameOf D p = n := by simp [nameOf, hEn]
      rw [← hnmof]
      exact search_options_mem D s p j hWF hj hjp
    have hgd : s.ordered[j]?.getD 0 = p := by
      rw [List.getElem?_eq_getElem hj]
      simpa using hjp
    by_cases hL : (D p).letter ≠ 0
    · have hmap' : s.shortMap[(D p).letter]?.getD none = some p := by
        simpa [List.getD_eq_getElem?_getD] using hlt hL
      simp only [registerOption, hEn, hS, Option.isSome_some]
      simp [hgd, hL, hmap']
    · simp only [registerOption, hEn, hS, Option.isSome_some]
      simp [hgd, hL]
  | none =>
    have hL : (D p).letter ≠ 0 := by
      rcases hreg with hns | hl
      · rw [hEn] at hns
        simp at hns
      · exact hl
    have hmap' : s.shortMap[(D p).letter]?.getD none = some p := by
      simpa [List.getD_eq_getElem?_getD] using hlt hL
    simp only [registerOption, hEn, Option.isSome_none]
    simp [hL, hmap']

/-- A definition carrying both a name and a letter. -/
def defBoth : OptDef := { name := some ['z'], store := some 0, letter := 122 }

/-- A registry state in which defBoth (pointer 0) is registered under both
its name and its letter. -/
def sBoth : RegState :=
  { ordered := [0], shortMap := emptyShortMap.set 122 (some 0),
    shortCount := 1, enumeration := none }

/-- C4 witness: the amended theorem applied to a concrete fully-registered
name-and-letter definition (result `Unchanged`, registry unchanged). -/
theorem register_same_pointer_witness :
    (registerOption (fun _ => defBoth) sBoth 0).2 = sBoth ∧
    count_options (registerOption (fun _ => defBoth) sBoth 0).2 =
      count_options sBoth ∧
    ((registerOption (fun _ => defBoth) sBoth 0).1 = .Unchanged ↔
      (((fun _ => defBoth) 0).name.isSome ∧ ((fun _ => defBoth) 0).letter ≠ 0)) :=
  register_same_pointer (fun _ => defBoth) sBoth 0 (by decide) (by decide)
    (by decide) (by decide)

/-! ## Claim C5 -/

/-- A definition registered under both a name and letter 120. -/
def defX : OptDef := { name := some ['x'], store := some 0, letter := 120 }

/-- C5: evaluation of the code at the failing input.  Register defX (letter
120) into the empty registry, then deregister it: `deregister_letter`'s loop
body executes `*dd == NULL;` -- a comparison, not an assignment -- so the
letter-table entry survives, and the deregistration path never invalidates
the cached enumeration either; afterwards no definition is registered
(`ordered` is empty) yet `get_short_opt_names` still returns the letter 120
and `find_short_option` still resolves it. -/
theorem deregister_leaves_letter_stale :
    (registerOption (fun _ => defX) initState 0).1 = .OK ∧
    (deregister_option (registerOption (fun _ => defX) initState 0).2 0).2.ordered
      = [] ∧
    (get_short_opt_names
      (deregister_option (registerOption (fun _ => defX) initState 0).2 0).2).1
      = [120] ∧
    find_short_option
      (deregister_option (registerOption (fun _ => defX) initState 0).2 0).2 120
      = some 0 := by
  have hS : search_options (fun _ => defX) initState ['x'] = ⟨0, false⟩ := by
    simp [search_options, searchLoop, initState]
  simp only [defX, initState] at hS
  simp only [registerOption, deregister_option, deregister_letter,
    deregister_name, get_short_opt_names, find_short_option, defX, initState, hS]
  decide

/-! ## Environment synchronizer (options.c) -/

/-- Embedding of `hide_check_for` and `hide_for_map` (options.c lines
446-492): the array has designated entries for `set_o`, `shopt`, `short`,
`env_bashopts` and `env_shellopts`; gaps of the array (`any`, `argv`) and
indices beyond its end (`unwind`, `reinit`, `unload`) yield NULL. -/
def hide_check_for (why : accessor_e) : Option (OptDef → Bool) :=
  match why with
  | .set_o => some (fun d => d.hide_set_o)
  | .shopt => some (fun d => d.hide_shopt)
  | .short => some (fun d => decide (d.letter = 0))
  | .env_bashopts => some (fun d => !d.adjust_bashopts)
  | .env_shellopts => some (fun d => !d.adjust_shellopts)
  | _ => none

/-- Embedding of `set_env_from_options` (options.c lines 777-823), returning
the colon-joined variable value it builds: the first pass flags every
definition that passes `filter` and the context's hide predicate and whose
value read under `Accessor (set_o)` is strictly positive; the second pass
appends each flagged name followed by ':' and finally cuts the trailing
colon -- together an `intercalate`.  The concluding `bind_variable` /
`VSETATTR` calls (variables.c, not in this repository) only publish the
value. -/
def set_env_from_options (D : Nat → OptDef) (s : RegState) (heap : List Int)
    (why : accessor_e) (filter : Option (OptDef → Bool)) : List Char :=
  let hidden := hide_check_for why
  List.intercalate [':']
    ((s.ordered.filter (fun p =>
        !(match filter with | some f => f (D p) | none => false) &&
        !(match hidden with | some f => f (D p) | none => false) &&
        decide (0 < get_opt_value (some (D p)) heap .set_o))).map (nameOf D))

/-- Body of the import loop of `get_options_from_env` (options.c lines
764-773): look the colon unit up, skip it when unknown, filtered or hidden,
and otherwise set the option to true (1).  The `warn_invalidopt` diagnostic
only prints.  A custom setter or the absent-store read would leave this
pure model (`none`); no theorem exercises those. -/
def import_step (D : Nat → OptDef) (s : RegState) (why : accessor_e)
    (filter : Option (OptDef → Bool)) (h : List Int) (u : List Char) :
    Option (List Int) :=
  match find_option D s u with
  | none => some h
  | some p =>
    if (match filter with | some f => f (D p) | none => false) then some h
    else if (match hide_check_for why with | some f => f (D p) | none => false)
      then some h
    else
      match set_opt_value (some (D p)) h why 1 with
      | .done _ h' _ _ => some h'
      | _ => none

/-- Embedding of `get_options_from_env` (options.c lines 746-775), applied to
the value of the variable.  The surrounding lookup and its guards
(`find_variable`, `imported_p`, `array_p`/`assoc_p`, all in variables.c,
which is not part of this repository) are preconditions of the importing
caller and are not modelled.  Modelled from the spec: `extract_colon_unit`
(bash's general.c, also absent from the repository) is described as "split
on colons". -/
def get_options_from_env (D : Nat → OptDef) (s : RegState) (heap : List Int)
    (why : accessor_e) (filter : Option (OptDef → Bool)) (value : List Char) :
    Option (List Int) :=
  (value.splitOn ':').foldlM (import_step D s why filter) heap

/-! ## Helper lemmas for the round-trip -/

theorem get_plain (d : OptDef) (heap : List Int) (why : accessor_e) (a : Nat)
    (hgf : d.get_func = none) (hst : d.store = some a) :
    get_opt_value (some d) heap why = heap.getD a 0 := by
  simp [get_opt_value, hgf, hst]

theorem set_plain (d : OptDef) (heap : List Int) (why : accessor_e) (v : Int)
    (hsf : d.set_func = none) (hro : d.readonly = false)
    (hfc : d.forbid_change = false) (hic : d.ignore_change = false)
    (a : Nat) (hst : d.store = some a) :
    set_opt_value (some d) heap why v =
      .done .OK (heap.set a v)
        (d.adjust_shellopts && decide (heap.getD a 0 ≠ v))
        (d.adjust_bashopts && decide (heap.getD a 0 ≠ v)) := by
  simp [set_opt_value, hsf, hro, hfc, hic, hst]

theorem getD_set_self (l : List Int) (i : Nat) (v : Int) (hi : i < l.length) :
    (l.set i v).getD i 0 = v := by
  simp [List.getD_eq_getElem?_getD, List.getElem?_set_self', List.getElem?_eq_getElem hi]

theorem getD_set_ne (l : List Int) (i j : Nat) (v : Int) (hij : i ≠ j) :
    (l.set i v).getD j 0 = l.getD j 0 := by
  simp [List.getD_eq_getElem?_getD, List.getElem?_set_ne hij]

theorem WF_nodup (D : Nat → OptDef) (s : RegState) (hWF : WF D s) :
    s.ordered.Nodup := by
  apply List.Pairwise.imp ?_ hWF.2
  intro a b hab hEq
  subst hEq
  rw [(strcmp_eq_zero_iff _ _).mpr rfl] at hab
  omega

/-- Cumulative effect of the import loop on the heap: every processed
definition's storage cell is written to 1, in order. -/
def write_on (D : Nat → OptDef) (h : List Int) (qs : List Nat) : List Int :=
  qs.foldl (fun hh q => hh.set ((D q).store.getD 0) 1) h

theorem write_on_cons (D : Nat → OptDef) (h : List Int) (q : Nat)
    (qs : List Nat) :
    write_on D h (q :: qs) = write_on D (h.set ((D q).store.getD 0) 1) qs := rfl

theorem length_write_on (D : Nat → OptDef) (qs : List Nat) :
    ∀ h : List Int, (write_on D h qs).length = h.length := by
  induction qs with
  | nil => intro h; rfl
  | cons q rest ih =>
    intro h
    rw [write_on_cons, ih, List.length_set]

theorem getD_write_on_not (D : Nat → OptDef) (qs : List Nat) :
    ∀ (h : List Int) (a : Nat), (∀ q ∈ qs, (D q).store.getD 0 ≠ a) →
      (write_on D h qs).getD a 0 = h.getD a 0 := by
  induction qs with
  | nil => intro h a _; rfl
  | cons q rest ih =>
    intro h a hne
    rw [write_on_cons, ih _ _ (fun r hr => hne r (List.mem_cons_of_mem q hr))]
    exact getD_set_ne h _ a 1 (hne q (List.mem_cons_self q rest))

theorem getD_write_on_mem (D : Nat → OptDef) (qs : List Nat) :
    ∀ (h : List Int) (q0 : Nat), q0 ∈ qs →
      (D q0).store.getD 0 < h.length →
      (∀ q ∈ qs, q ≠ q0 → (D q).store.getD 0 ≠ (D q0).store.getD 0) →
      (write_on D h qs).getD ((D q0).store.getD 0) 0 = 1 := by
  induction qs with
  | nil => intro h q0 hq0; exact absurd hq0 (List.not_mem_nil q0)
  | cons q rest ih =>
    intro h q0 hq0 hlt hne
    by_cases hmem : q0 ∈ rest
    · rw [write_on_cons]
      apply ih _ q0 hmem (by rw [List.length_set]; exact hlt)
      exact fun r hr => hne r (List.mem_cons_of_mem q hr)
    · have hq0q : q0 = q := by
        rcases List.mem_cons.mp hq0 with h1 | h1
        · exact h1
        · exact absurd h1 hmem
      subst hq0q
      rw [write_on_cons]
      rw [getD_write_on_not D rest _ _ ?hrest]
      case hrest =>
        intro r hr
        exact hne r (List.mem_cons_of_mem q0 hr)
          (fun hc => hmem (hc ▸ hr))
      exact getD_set_self h _ 1 hlt

theorem foldlM_cons_option {α β : Type} (f : β → α → Option β) (b : β)
    (x : α) (xs : List α) :
    (x :: xs).foldlM f b = (f b x).bind (fun b' => xs.foldlM f b') := by
  simp [List.foldlM]

/-- With no caller filter and a context whose hide predicate rejects none of
the registered definitions, the synchronizer's value is exactly the
colon-join of the names of the definitions whose value is on. -/
theorem set_env_chars (D : Nat → OptDef) (s : RegState) (heap : List Int)
    (why : accessor_e)
    (hhide : ∀ f, hide_check_for why = some f → ∀ p ∈ s.ordered, f (D p) = false) :
    set_env_from_options D s heap why none =
      List.intercalate [':']
        ((s.ordered.filter
            (fun p => decide (0 < get_opt_value (some (D p)) heap .set_o))).map
          (nameOf D)) := by
  simp only [set_env_from_options]
  congr 2
  apply List.filter_congr
  intro p hp
  cases hcf : hide_check_for why with
  | none => simp
  | some f => simp [hhide f hcf p hp]

/-- The import loop over the names of registered plain definitions sets each
of their storage cells to 1. -/
theorem import_fold (D : Nat → OptDef) (s : RegState) (why : accessor_e)
    (hWF : WF D s)
    (hplain : ∀ p ∈ s.ordered, (D p).set_func = none ∧ (D p).get_func = none ∧
      (D p).readonly = false ∧ (D p).forbid_change = false ∧
      (D p).ignore_change = false ∧ (D p).store.isSome)
    (hhide : ∀ f, hide_check_for why = some f → ∀ p ∈ s.ordered, f (D p) = false) :
    ∀ (qs : List Nat) (h : List Int), (∀ q ∈ qs, q ∈ s.ordered) →
      (qs.map (nameOf D)).foldlM (import_step D s why none) h =
        some (write_on D h qs) := by
  intro qs
  induction qs with
  | nil => intro h _; rfl
  | cons q rest ih =>
    intro h hmem
    have hqo : q ∈ s.ordered := hmem q (List.mem_cons_self q rest)
    obtain ⟨hsf, hgf, hro, hfc, hic, hstore⟩ := hplain q hqo
    obtain ⟨a, ha⟩ := Option.isSome_iff_exists.mp hstore
    have hfind : find_option D s (nameOf D q) = some q := find_option_mem D s hWF hqo
    have hhq : (match hide_check_for why with
        | some f => f (D q) | none => false) = false := by
      cases hcf : hide_check_for why with
      | none => rfl
      | some f => exact hhide f hcf q hqo
    have hstep : import_step D s why none h (nameOf D q) = some (h.set a 1) := by
      simp [import_step, hfind, hhq,
        set_plain (D q) h why 1 hsf hro hfc hic a ha]
    rw [List.map_cons, foldlM_cons_option, hstep]
    show (rest.map (nameOf D)).foldlM (import_step D s why none) (h.set a 1)
      = some (write_on D h (q :: rest))
    rw [ih (h.set a 1) (fun r hr => hmem r (List.mem_cons_of_mem q hr))]
    rw [write_on_cons]
    rw [show (D q).store.getD 0 = a by rw [ha]; rfl]

/-! ## Claim C7 -/

/-- C7: round-trip.  Synchronize the derived colon-joined variable from a
registry whose plain stored definitions carry arbitrary values, then import
that same value under the matching Access Context into a heap where no
option is on: afterwards exactly the set of options that were on at
synchronization time is on. -/
theorem options_env_round_trip (D : Nat → OptDef) (s : RegState)
    (heap0 heap1 : List Int) (why : accessor_e)
    (hWF : WF D s)
    (hplain : ∀ p ∈ s.ordered, (D p).set_func = none ∧ (D p).get_func = none ∧
      (D p).readonly = false ∧ (D p).forbid_change = false ∧
      (D p).ignore_change = false ∧ (D p).store.isSome)
    (hlen : ∀ p ∈ s.ordered, (D p).store.getD 0 < heap0.length)
    (hinj : ∀ p ∈ s.ordered, ∀ q ∈ s.ordered, p ≠ q →
      (D p).store.getD 0 ≠ (D q).store.getD 0)
    (hnames : ∀ p ∈ s.ordered, nameOf D p ≠ [] ∧ ':' ∉ nameOf D p)
    (hhide : ∀ f, hide_check_for why = some f → ∀ p ∈ s.ordered, f (D p) = false)
    (hoff : ∀ p ∈ s.ordered, heap0.getD ((D p).store.getD 0) 0 ≤ 0) :
    ∃ heap2,
      get_options_from_env D s heap0 why none
        (set_env_from_options D s heap1 why none) = some heap2 ∧
      ∀ p ∈ s.ordered,
        (0 < get_opt_value (some (D p)) heap2 .set_o ↔
         0 < get_opt_value (some (D p)) heap1 .set_o) := by
  set onList := s.ordered.filter
    (fun p => decide (0 < get_opt_value (some (D p)) heap1 .set_o)) with hOn
  have hOnSub : ∀ q ∈ onList, q ∈ s.ordered := fun q hq => (List.mem_filter.mp hq).1
  have hval : set_env_from_options D s heap1 why none =
      List.intercalate [':'] (onList.map (nameOf D)) :=
    set_env_chars D s heap1 why hhide
  by_cases hnil : onList = []
  · refine ⟨heap0, ?_, ?_⟩
    · rw [hval, hnil]
      show get_options_from_env D s heap0 why none [] = some heap0
      unfold get_options_from_env
      rw [List.splitOn_nil, foldlM_cons_option]
      have hfind : find_option D s [] = none := by
        apply find_option_of_no_name D s [] hWF
        intro q hq
        exact (hnames q hq).1
      rw [show import_step D s why none heap0 [] = some heap0 from by
        simp [import_step, hfind]]
      rfl
    · intro p hp
      obtain ⟨hsf, hgf, hro, hfc, hic, hstore⟩ := hplain p hp
      obtain ⟨a, ha⟩ := Option.isSome_iff_exists.mp hstore
      have hga : (D p).store.getD 0 = a := by rw [ha]; rfl
      rw [get_plain (D p) heap0 _ a hgf ha, get_plain (D p) heap1 _ a hgf ha]
      have hle := hoff p hp
      rw [hga] at hle
      constructor
      · intro h0
        omega
      · intro h1
        exfalso
        have hpOn : p ∈ onList := by
          rw [hOn]
          refine List.mem_filter.mpr ⟨hp, ?_⟩
          simp only [decide_eq_true_eq]
          rw [get_plain (D p) heap1 _ a hgf ha]
          exact h1
        rw [hnil] at hpOn
        exact absurd hpOn (List.not_mem_nil p)
  · have hsplit : (List.intercalate [':'] (onList.map (nameOf D))).splitOn ':' =
        onList.map (nameOf D) := by
      apply List.splitOn_intercalate (onList.map (nameOf D)) ':'
      · intro l hl
        obtain ⟨q, hq, rfl⟩ := List.mem_map.mp hl
        exact (hnames q (hOnSub q hq)).2
      · intro hc
        exact hnil (List.map_eq_nil_iff.mp hc)
    refine ⟨write_on D heap0 onList, ?_, ?_⟩
    · unfold get_options_from_env
      rw [hval, hsplit]
      exact import_fold D s why hWF hplain hhide onList heap0 hOnSub
    · intro p hp
      obtain ⟨hsf, hgf, hro, hfc, hic, hstore⟩ := hplain p hp
      obtain ⟨a, ha⟩ := Option.isSome_iff_exists.mp hstore
      have hga : (D p).store.getD 0 = a := by rw [ha]; rfl
      rw [get_plain (D p) _ _ a hgf ha, get_plain (D p) heap1 _ a hgf ha]
      by_cases hon : 0 < heap1.getD a 0
      · have hpOn : p ∈ onList := by
          rw [hOn]
          refine List.mem_filter.mpr ⟨hp, ?_⟩
          simp only [decide_eq_true_eq]
          rw [get_plain (D p) heap1 _ a hgf ha]
          exact hon
        have h1 : (write_on D heap0 onList).getD a 0 = 1 := by
          rw [← hga]
          apply getD_write_on_mem D onList heap0 p hpOn (hlen p hp)
          intro q hq hqp
          exact hinj q (hOnSub q hq) p hp hqp
        rw [h1]
        constructor
        · intro _; exact hon
        · intro _; omega
      · have hpOff : p ∉ onList := by
          rw [hOn]
          intro hc
          have hdec := (List.mem_filter.mp hc).2
          simp only [decide_eq_true_eq] at hdec
          rw [get_plain (D p) heap1 _ a hgf ha] at hdec
          exact hon hdec
        have h0 : (write_on D heap0 onList).getD a 0 = heap0.getD a 0 := by
          rw [← hga]
          apply getD_write_on_not
          intro q hq
          have hqp : q ≠ p := fun hc => hpOff (hc ▸ hq)
          exact hinj q (hOnSub q hq) p hp hqp
        rw [h0]
        have hle := hoff p hp
        rw [hga] at hle
        constructor
        · intro hh; omega
        · intro hh; exact absurd hh hon

/-- C7 witness: the round-trip theorem applied to the concrete two-option
registry, with defA on and defB off at synchronization time. -/
theorem options_env_round_trip_witness :
    ∃ heap2,
      get_options_from_env Dab sAB [0, 0] .any none
        (set_env_from_options Dab sAB [1, 0] .any none) = some heap2 ∧
      ∀ p ∈ sAB.ordered,
        (0 < get_opt_value (some (Dab p)) heap2 .set_o ↔
         0 < get_opt_value (some (Dab p)) [1, 0] .set_o) :=
  options_env_round_trip Dab sAB [0, 0] [1, 0] .any (by decide)
    (by
      intro p hp
      simp [sAB] at hp
      rcases hp with rfl | rfl <;> exact ⟨rfl, rfl, rfl, rfl, rfl, rfl⟩)
    (by decide) (by decide) (by decide)
    (fun f hf => Option.noConfusion hf) (by decide)
